import Mathlib

/-!
Shallow embedding of the MortPion server game core, translated from the
TypeScript sources:

* `packages/shared/src/game-logic.ts` — pure board and rule primitives
  (`createEmptyBoard`, `isLegalMove`, `hasLegalMoves`, `getVisiblePiece`,
  `checkSameColorAlignment`, `checkWinConditions`, `isDraw`, `getNextPlayer`);
* the server `Player` model (`Player.ts`) — per-seat record and its mutators;
* the server `Game` model (`Game.ts`) — match state machine
  (`initialize`, `isValidMove`, `applyMove`, `moveToNextPlayer`,
  `skipCurrentPlayer`, `skipTurn`, `checkGameEnd`, `reset`);
* the server `Room` model (`Room.ts`) — lobby seat management and the
  replay-vote protocol (`addPlayer`, `removePlayer`, `startGame`,
  `startReplayVoting`, `castReplayVote`, `checkReplayVotes`, `replay`).

Conventions of the embedding:

* Wall-clock timestamps (`startedAt`, `finishedAt`, `turnStartTime`) carry no
  game-rule content and are omitted from the state; where an operation
  compares against the clock (`replayDeadline`), the current time is passed
  explicitly as a `now : Nat` argument.
* `Math.random()` in `Game.initialize` is modelled by an explicit
  `randIdx : Nat` argument, reduced modulo the number of players.
* JavaScript object identity (needed for the aliasing claim about
  `Room.startGame`) is modelled separately by an explicit heap of player
  records addressed by allocation order; see the `SysState` section.
* The recursion of `Game.moveToNextPlayer` is bounded by an explicit fuel
  argument; the wrapper supplies `players.length + 1` fuel, which is enough
  for the recursion to terminate exactly as in the source (the recursion
  advances one seat per call and stops at the first active seat that has a
  legal move, whose existence is checked before each descent).
-/

/-- The four piece colors of `types.ts`. -/
inductive Color where
  | red | blue | green | yellow
deriving DecidableEq, Repr

/-- The three piece sizes of `types.ts` (petit, moyen, grand). -/
inductive Size where
  | P | M | G
deriving DecidableEq, Repr

/-- One board cell: three independent size slots, each holding an optional
color, as in `createEmptyBoard` of `game-logic.ts`. -/
structure Cell where
  P : Option Color
  M : Option Color
  G : Option Color
deriving DecidableEq, Repr

/-- Read the slot of a cell for a given size. -/
def Cell.slot (c : Cell) : Size → Option Color
  | Size.P => c.P
  | Size.M => c.M
  | Size.G => c.G

/-- Write the slot of a cell for a given size. -/
def Cell.setSlot (c : Cell) : Size → Option Color → Cell
  | Size.P, v => { c with P := v }
  | Size.M, v => { c with M := v }
  | Size.G, v => { c with G := v }

/-- A fully empty cell. -/
def emptyCell : Cell := ⟨none, none, none⟩

/-- The board is the 9-cell array of `game-logic.ts`, row major, cells 0..8.
We represent it as a list; every board built by the code has length 9. -/
def Board := List Cell
deriving DecidableEq

/-- `createEmptyBoard` of `game-logic.ts`: nine empty cells. -/
def createEmptyBoard : Board := List.replicate 9 emptyCell

/-- Cell access `board[cellIndex]`; out-of-range access never happens after
the range guard of `isLegalMove`, so a default empty cell keeps the function
total. -/
def Board.cellAt (b : Board) (i : Nat) : Cell := b.getD i emptyCell

/-- `isLegalMove` of `game-logic.ts` (the variant imported by the server
`Game` model). After the 0..8 range guard it enforces the nesting rules the
source comments call "P < M < G": a G needs the G slot free, an M needs the
M and G slots free, a P needs all three slots free. The `color` parameter of
the source is unused. The cell index is an `Int` because the source guards
against negative numbers. -/
def isLegalMove (board : Board) (cellIndex : Int) (size : Size) : Bool :=
  if cellIndex < 0 || cellIndex > 8 then false
  else
    let cell := board.cellAt cellIndex.toNat
    match size with
    | Size.G => cell.G = none
    | Size.M => cell.M = none && cell.G = none
    | Size.P => cell.P = none && cell.M = none && cell.G = none

/-- Per-seat piece counts (`PlayerInventory` of `Player.ts`). -/
structure Inventory where
  P : Nat
  M : Nat
  G : Nat
deriving DecidableEq, Repr

/-- Read the inventory count for a size. -/
def Inventory.count (inv : Inventory) : Size → Nat
  | Size.P => inv.P
  | Size.M => inv.M
  | Size.G => inv.G

/-- The full starting inventory: three pieces of each size. -/
def fullInventory : Inventory := ⟨3, 3, 3⟩

/-- The seat record of the server `Player.ts` class. -/
structure PlayerRec where
  id : String
  nickname : String
  color : Color
  inventory : Inventory
  connected : Bool
  skipsInARow : Nat
  isEliminated : Bool
  isHost : Bool
deriving DecidableEq, Repr

/-- `Player` constructor of `Player.ts`: fresh inventory {3,3,3}, zero
skips, not eliminated. -/
def mkPlayer (id nickname : String) (color : Color) (connected isHost : Bool) :
    PlayerRec :=
  { id := id, nickname := nickname, color := color, inventory := fullInventory,
    connected := connected, skipsInARow := 0, isEliminated := false,
    isHost := isHost }

/-- `hasPiece` of `Player.ts`. -/
def PlayerRec.hasPiece (p : PlayerRec) (size : Size) : Bool :=
  p.inventory.count size > 0

/-- `usePiece` of `Player.ts`: decrement the inventory for a size (the
callers guard the zero case with `hasPiece`). -/
def PlayerRec.usePiece (p : PlayerRec) (size : Size) : PlayerRec :=
  { p with inventory :=
      match size with
      | Size.P => { p.inventory with P := p.inventory.P - 1 }
      | Size.M => { p.inventory with M := p.inventory.M - 1 }
      | Size.G => { p.inventory with G := p.inventory.G - 1 } }

/-- `resetSkips` of `Player.ts`. -/
def PlayerRec.resetSkips (p : PlayerRec) : PlayerRec := { p with skipsInARow := 0 }

/-- `incrementSkips` of `Player.ts`. -/
def PlayerRec.incrementSkips (p : PlayerRec) : PlayerRec :=
  { p with skipsInARow := p.skipsInARow + 1 }

/-- `eliminate` of `Player.ts`. -/
def PlayerRec.eliminate (p : PlayerRec) : PlayerRec := { p with isEliminated := true }

/-- `setConnected` of `Player.ts`. -/
def PlayerRec.setConnected (p : PlayerRec) (c : Bool) : PlayerRec :=
  { p with connected := c }

/-- `setHost` of `Player.ts`. -/
def PlayerRec.setHost (p : PlayerRec) (h : Bool) : PlayerRec := { p with isHost := h }

/-- The active-seat test used throughout `game-logic.ts` and `Game.ts`:
`!p.isEliminated && p.connected`. -/
def isActive (p : PlayerRec) : Bool := !p.isEliminated && p.connected

/-- `hasLegalMoves` of `game-logic.ts`: some cell 0..8 and some size with
positive inventory admits a legal move. -/
def hasLegalMoves (board : Board) (player : PlayerRec) : Bool :=
  (List.range 9).any fun cellIndex =>
    [Size.P, Size.M, Size.G].any fun size =>
      player.inventory.count size > 0 && isLegalMove board (cellIndex : Int) size

/-- `getVisiblePiece` of `game-logic.ts`: color of the largest occupied
slot, G over M over P. -/
def getVisiblePiece (cell : Cell) : Option Color :=
  match cell.G with
  | some c => some c
  | none =>
    match cell.M with
    | some c => some c
    | none => cell.P

/-- The eight alignment lines of `checkSameColorAlignment`. -/
def winLines : List (List Nat) :=
  [[0, 1, 2], [3, 4, 5], [6, 7, 8],
   [0, 3, 6], [1, 4, 7], [2, 5, 8],
   [0, 4, 8], [2, 4, 6]]

/-- `checkSameColorAlignment` of `game-logic.ts`: some line has the visible
piece of every cell equal to the color. -/
def checkSameColorAlignment (board : Board) (color : Color) : Bool :=
  winLines.any fun line =>
    line.all fun cellIndex => getVisiblePiece (board.cellAt cellIndex) = some color

/-- `checkWinConditions` of `game-logic.ts`. -/
def checkWinConditions (board : Board) (color : Color) : Bool :=
  checkSameColorAlignment board color

/-- `isDraw` of `game-logic.ts`: no player has a legal move. -/
def isDrawB (board : Board) (players : List PlayerRec) : Bool :=
  players.all fun player => !hasLegalMoves board player

/-- `getNextPlayer` of `game-logic.ts`: filter the active players, find the
current player in the filtered list, and step one position forward with
wraparound; if the current player is not in the filtered list the first
active player is returned. -/
def getNextPlayer (players : List PlayerRec) (currentPlayerId : String) :
    Option PlayerRec :=
  let activePlayers := players.filter isActive
  if activePlayers.isEmpty then none
  else
    match activePlayers.findIdx? (fun p => p.id = currentPlayerId) with
    | none => activePlayers[0]?
    | some currentIndex => activePlayers[(currentIndex + 1) % activePlayers.length]?

/-- `GameStatus` of the server `Game.ts`. -/
inductive GameStatus where
  | waiting | playing | finished
deriving DecidableEq, Repr

/-- The server `Game.ts` state. The wall-clock fields (`startedAt`,
`finishedAt`, `turnStartTime`, `turnTimeLimit`) are omitted: no rule of the
engine reads them back into a game decision. -/
structure Game where
  board : Board
  players : List PlayerRec
  currentPlayerId : Option String
  status : GameStatus
  winnerId : Option String
  isDraw : Bool
deriving DecidableEq

/-- The `Game` constructor of `Game.ts`. -/
def mkGame : Game :=
  { board := createEmptyBoard, players := [], currentPlayerId := none,
    status := GameStatus.waiting, winnerId := none, isDraw := false }

/-- In-place mutation of the player object found by id, as performed by the
source on the class instance inside `this.players`. All states the server
builds carry pairwise distinct ids, in which case updating every match is
the same as updating the one found instance. -/
def updatePlayer (players : List PlayerRec) (pid : String)
    (f : PlayerRec → PlayerRec) : List PlayerRec :=
  players.map fun p => if p.id = pid then f p else p

/-- `board[cellIndex][size] = v`. -/
def Board.setSlot (b : Board) (i : Nat) (size : Size) (v : Option Color) : Board :=
  b.set i ((b.cellAt i).setSlot size v)

/-- `getCurrentPlayer` of `Game.ts`. -/
def Game.getCurrentPlayer (g : Game) : Option PlayerRec :=
  match g.currentPlayerId with
  | none => none
  | some cid => g.players.find? fun p => p.id = cid

/-- `getActivePlayers` of `Game.ts`. -/
def Game.getActivePlayers (g : Game) : List PlayerRec := g.players.filter isActive

/-- `isValidMove` of `Game.ts`: playing status, matching current player,
existing non-eliminated seat with a piece of the size, and a board-legal
move. -/
def Game.isValidMove (g : Game) (playerId : String) (cellIndex : Int)
    (size : Size) : Bool :=
  if g.status ≠ GameStatus.playing then false
  else if g.currentPlayerId ≠ some playerId then false
  else
    match g.players.find? (fun p => p.id = playerId) with
    | none => false
    | some player =>
      if player.isEliminated then false
      else if ¬ player.hasPiece size then false
      else isLegalMove g.board cellIndex size

/-- The body of `moveToNextPlayer` of `Game.ts`, with the self-recursion
bounded by fuel. The timestamp-only `startTurn` call is omitted. -/
def moveToNextPlayerAux : Nat → Game → Game
  | 0, g => g
  | fuel + 1, g =>
    let activePlayers := g.getActivePlayers
    if activePlayers.length = 0 then { g with status := GameStatus.finished }
    else
      let playersWithMoves := activePlayers.filter fun p => hasLegalMoves g.board p
      if playersWithMoves.length = 0 then
        { g with isDraw := true, status := GameStatus.finished }
      else
        match getNextPlayer g.players (g.currentPlayerId.getD "") with
        | none => { g with status := GameStatus.finished }
        | some nextPlayer =>
          let g1 := { g with currentPlayerId := some nextPlayer.id }
          if ¬ hasLegalMoves g1.board nextPlayer then
            moveToNextPlayerAux fuel
              { g1 with
                players := updatePlayer g1.players nextPlayer.id
                  PlayerRec.incrementSkips }
          else g1

/-- `moveToNextPlayer` of `Game.ts`. `players.length + 1` fuel always
suffices: each descent moves `currentPlayerId` one active seat forward and
the guard before every descent certifies some active seat has a legal move,
so at most one full wrap of the active seats is traversed. -/
def Game.moveToNextPlayer (g : Game) : Game :=
  moveToNextPlayerAux (g.players.length + 1) g

/-- The increment-then-maybe-eliminate mutation shared by
`skipCurrentPlayer` and `skipTurn` of `Game.ts` (elimination at 2
consecutive skips). -/
def skipAndMaybeEliminate (p : PlayerRec) : PlayerRec :=
  let p1 := p.incrementSkips
  if p1.skipsInARow ≥ 2 then p1.eliminate else p1

/-- `skipCurrentPlayer` of `Game.ts`. -/
def Game.skipCurrentPlayer (g : Game) : Game :=
  if g.status ≠ GameStatus.playing ∨ g.currentPlayerId = none then g
  else
    let g1 :=
      match g.getCurrentPlayer with
      | none => g
      | some currentPlayer =>
        { g with players := updatePlayer g.players currentPlayer.id skipAndMaybeEliminate }
    g1.moveToNextPlayer

/-- `checkGameEnd` of `Game.ts`. Note the absence of any status guard in
the source: the function runs its branches whatever `status` holds. -/
def Game.checkGameEnd (g : Game) : Game :=
  let activePlayers := g.getActivePlayers
  if activePlayers.length < 2 then
    match activePlayers with
    | [p] => { g with status := GameStatus.finished, winnerId := some p.id }
    | _ => { g with status := GameStatus.finished }
  else g

/-- `skipTurn` of `Game.ts`: increment-and-maybe-eliminate the current
player, advance the turn, then run `checkGameEnd`. -/
def Game.skipTurn (g : Game) : Game × Bool :=
  if g.status ≠ GameStatus.playing ∨ g.currentPlayerId = none then (g, false)
  else
    match g.getCurrentPlayer with
    | none => (g, false)
    | some currentPlayer =>
      let g1 := { g with players := updatePlayer g.players currentPlayer.id skipAndMaybeEliminate }
      ((g1.moveToNextPlayer).checkGameEnd, true)

/-- `applyMove` of `Game.ts`: validate, write the slot, decrement the
inventory, reset the skip counter, then settle win, draw or turn
advancement. Returns the updated game and the boolean result of the
source. -/
def Game.applyMove (g : Game) (playerId : String) (cellIndex : Int)
    (size : Size) : Game × Bool :=
  if ¬ g.isValidMove playerId cellIndex size then (g, false)
  else
    match g.players.find? (fun p => p.id = playerId) with
    | none => (g, false)
    | some player =>
      let board1 := g.board.setSlot cellIndex.toNat size (some player.color)
      let players1 := updatePlayer g.players playerId
        fun p => (p.usePiece size).resetSkips
      let g1 := { g with board := board1, players := players1 }
      if checkWinConditions board1 player.color then
        ({ g1 with status := GameStatus.finished, winnerId := some player.id }, true)
      else if isDrawB board1 players1 then
        ({ g1 with status := GameStatus.finished, isDraw := true }, true)
      else (g1.moveToNextPlayer, true)

/-- The ordered color palette of `Game.initialize` and `Room.addPlayer`. -/
def paletteColors : List Color := [Color.red, Color.blue, Color.green, Color.yellow]

/-- The indexed `players.map` of `Game.initialize`: seat at position
`index` receives `availableColors[index]` and a fresh `Player` record
(inventory reset, skips 0, not eliminated), keeping id, nickname,
connected, isHost. -/
def initPlayers : Nat → List PlayerRec → List PlayerRec
  | _, [] => []
  | index, player :: rest =>
      mkPlayer player.id player.nickname (paletteColors.getD index Color.red)
        player.connected player.isHost :: initPlayers (index + 1) rest

/-- `initialize` of `Game.ts`. `randIdx` stands for the `Math.random`
draw; the source index is always in range, modelled with `% length` and a
`getD`. The out-of-range player-count case throws in the source and is
modelled as leaving the state unchanged. -/
def Game.initGame (g : Game) (players : List PlayerRec) (randIdx : Nat) : Game :=
  if players.length < 2 ∨ players.length > 4 then g
  else
    let newPlayers := initPlayers 0 players
    { g with
      board := createEmptyBoard,
      players := newPlayers,
      currentPlayerId :=
        some (newPlayers.getD (randIdx % newPlayers.length)
          (mkPlayer "" "" Color.red true false)).id,
      status := GameStatus.playing,
      winnerId := none,
      isDraw := false }

/-- `reset` of `Game.ts`. -/
def Game.reset (g : Game) : Game :=
  { board := createEmptyBoard,
    players := g.players.map fun p =>
      { p with inventory := fullInventory, skipsInARow := 0, isEliminated := false },
    currentPlayerId := none, status := GameStatus.waiting,
    winnerId := none, isDraw := false }

/-- Outcome of `Room.checkReplayVotes`. -/
inductive VoteOutcome where
  | pending | accepted | rejected
deriving DecidableEq, Repr

/-- The server `Room.ts` state restricted to the fields the claims touch.
Omitted: `name` validation, privacy code, TTL timestamps,
`disconnectionTime` (none of them feeds back into the modelled
operations). The vote `Map` is an association list with `Map.set`
semantics. -/
structure Room where
  capacity : Nat
  hostId : String
  players : List PlayerRec
  game : Game
  replayVotes : List (String × Bool)
  replayDeadline : Option Nat
deriving DecidableEq

/-- A freshly constructed room (capacity validation of the source
elided; the claims use valid capacities 2..4). -/
def mkRoom (capacity : Nat) (hostId : String) : Room :=
  { capacity := capacity, hostId := hostId, players := [], game := mkGame,
    replayVotes := [], replayDeadline := none }

/-- `Map.set` on the vote map. -/
def votesSet (votes : List (String × Bool)) (pid : String) (v : Bool) :
    List (String × Bool) :=
  if votes.any (fun e => e.1 = pid) then
    votes.map fun e => if e.1 = pid then (pid, v) else e
  else votes ++ [(pid, v)]

/-- `Map.get` on the vote map (`none` when the seat has not voted). -/
def votesGet (votes : List (String × Bool)) (pid : String) : Option Bool :=
  (votes.find? fun e => e.1 = pid).map Prod.snd

/-- `startGame` of `Room.ts` (the TTL reset is timestamp-only and
omitted). The under-two-players case throws in the source. -/
def Room.startGame (r : Room) (randIdx : Nat) : Room :=
  if r.players.length < 2 then r
  else { r with game := Game.initGame r.game r.players randIdx }

/-- `addPlayer` of `Room.ts`: capacity and duplicate checks, first-unused
palette color, fresh `Player` with `isHost = (id == hostId)`, autostart
when the room becomes full. `randIdx` feeds the autostart. -/
def Room.addPlayer (r : Room) (player : PlayerRec) (randIdx : Nat) : Room × Bool :=
  if r.players.length ≥ r.capacity then (r, false)
  else if r.players.any (fun p => p.id = player.id) then (r, false)
  else
    let usedColors := r.players.map PlayerRec.color
    match paletteColors.find? (fun c => ¬ usedColors.contains c) with
    | none => (r, false)
    | some availableColor =>
      let roomPlayer := mkPlayer player.id player.nickname availableColor
        player.connected (player.id = r.hostId)
      let r1 := { r with players := r.players ++ [roomPlayer] }
      if r1.players.length = r1.capacity then (r1.startGame randIdx, true)
      else (r1, true)

/-- `transferHost` of `Room.ts`: promote the earliest joined seat. -/
def Room.transferHost (r : Room) : Room :=
  match r.players with
  | [] => r
  | newHost :: rest =>
    { r with players := newHost.setHost true :: rest.map (fun p => p.setHost false),
             hostId := newHost.id }

/-- `removePlayer` of `Room.ts`: splice the seat out, transfer the host
role if needed, and run `checkGameEnd` when a match is in progress. -/
def Room.removePlayer (r : Room) (playerId : String) : Room × Bool :=
  match r.players.findIdx? (fun p => p.id = playerId) with
  | none => (r, false)
  | some playerIndex =>
    match r.players[playerIndex]? with
    | none => (r, false)
    | some removedPlayer =>
      let r1 := { r with players := r.players.eraseIdx playerIndex }
      let r2 := if removedPlayer.isHost ∧ r1.players.length > 0
        then r1.transferHost else r1
      let r3 := if r2.game.status = GameStatus.playing
        then { r2 with game := r2.game.checkGameEnd } else r2
      (r3, true)

/-- `startReplayVoting` of `Room.ts`: clear the votes and open a 30 s
window. -/
def Room.startReplayVoting (r : Room) (now : Nat) : Room :=
  { r with replayVotes := [], replayDeadline := some (now + 30 * 1000) }

/-- `castReplayVote` of `Room.ts`: reject when the window is closed or the
caster is not a currently connected seat of the room. -/
def Room.castReplayVote (r : Room) (now : Nat) (playerId : String) (vote : Bool) :
    Room × Bool :=
  match r.replayDeadline with
  | none => (r, false)
  | some d =>
    if now > d then (r, false)
    else if ¬ r.players.any (fun p => p.id = playerId && p.connected) then (r, false)
    else ({ r with replayVotes := votesSet r.replayVotes playerId vote }, true)

/-- `checkReplayVotes` of `Room.ts`: the required voters are the seats
connected at the time of the check. -/
def Room.checkReplayVotes (r : Room) (now : Nat) : VoteOutcome :=
  match r.replayDeadline with
  | none => VoteOutcome.rejected
  | some d =>
    let connectedPlayers := r.players.filter fun p => p.connected
    if now > d then VoteOutcome.rejected
    else if ¬ connectedPlayers.all (fun p => (votesGet r.replayVotes p.id).isSome) then
      VoteOutcome.pending
    else if connectedPlayers.all (fun p => votesGet r.replayVotes p.id = some true) then
      VoteOutcome.accepted
    else VoteOutcome.rejected

/-- `replay` of `Room.ts`: reset and reinitialize the game, clear the vote
state. -/
def Room.replay (r : Room) (randIdx : Nat) : Room :=
  { r with game := Game.initGame (r.game.reset) r.players randIdx,
           replayVotes := [], replayDeadline := none }

/-- The `player.setConnected` mutation reached through `Room.getPlayer` by
`ConnectionManager.disconnect` on a transport drop. -/
def Room.setPlayerConnected (r : Room) (playerId : String) (c : Bool) : Room :=
  { r with players := updatePlayer r.players playerId fun p => p.setConnected c }

/-- The `player.eliminate` mutation reached through `Room.getPlayer` by
`ConnectionManager.disconnect` on an explicit leave during a match. -/
def Room.eliminatePlayer (r : Room) (playerId : String) : Room :=
  { r with players := updatePlayer r.players playerId PlayerRec.eliminate }

/-!
Object-identity model. The frame claim about `Room.startGame` is about
JavaScript object identity: `Game.initialize` maps every room `Player`
instance to a `new Player(...)` instance, so later in-place mutations of a
room record (through `Room.getPlayer`) cannot reach the match records and
vice versa. We model the object store as a heap of player records addressed
by allocation order: `new Player` appends to the heap, the room and the game
each hold lists of addresses, and a mutation through either side rewrites
the heap at the address found by id on that side only.
-/

/-- The process heap of player objects together with the addresses held by
`Room.players` and by `Room.game.players`. -/
structure SysState where
  heap : List PlayerRec
  roomPlayerAddrs : List Nat
  gamePlayerAddrs : List Nat

/-- Heap read (dangling addresses give `none`). -/
def heapGet (h : List PlayerRec) (a : Nat) : Option PlayerRec := h[a]?

/-- Heap write. -/
def heapSet (h : List PlayerRec) (a : Nat) (p : PlayerRec) : List PlayerRec :=
  h.set a p

/-- The fresh match record `new Player({...})` allocated by
`Game.initialize` for the room record at heap address `a`, seat position
`index`. -/
def freshMatchPlayer (h : List PlayerRec) (index a : Nat) : PlayerRec :=
  let src := (heapGet h a).getD (mkPlayer "" "" Color.red true false)
  mkPlayer src.id src.nickname (paletteColors.getD index Color.red)
    src.connected src.isHost

/-- The `players.map((player, index) => new Player({...}))` of
`Game.initialize`, heap version: read each room record, allocate a fresh
match record built exactly as `initPlayers` builds it, and collect the
fresh addresses. -/
def allocMatchPlayers (h : List PlayerRec) :
    Nat → List Nat → List PlayerRec × List Nat
  | _, [] => (h, [])
  | index, a :: rest =>
    let r := allocMatchPlayers (h ++ [freshMatchPlayer h index a]) (index + 1) rest
    (r.1, h.length :: r.2)

/-- `Room.startGame` restricted to its object-allocation effect: the match
takes fresh copies of the room seats; the room addresses are untouched. -/
def SysState.startGameS (s : SysState) : SysState :=
  let r := allocMatchPlayers s.heap 0 s.roomPlayerAddrs
  { s with heap := r.1, gamePlayerAddrs := r.2 }

/-- Mutate the record at one heap address (no-op when dangling). -/
def SysState.mutateAddr (s : SysState) (a : Nat) (f : PlayerRec → PlayerRec) :
    SysState :=
  match heapGet s.heap a with
  | none => s
  | some p => { s with heap := heapSet s.heap a (f p) }

/-- `players.find(p => p.id === playerId)` over a list of addresses. -/
def findAddrById (h : List PlayerRec) (addrs : List Nat) (playerId : String) :
    Option Nat :=
  addrs.find? fun a =>
    match heapGet h a with
    | some p => p.id = playerId
    | none => false

/-- A mutation through `Room.getPlayer(playerId)` — e.g. `eliminate()` or
`setConnected(false)` in `ConnectionManager.disconnect`. -/
def SysState.mutateRoomPlayer (s : SysState) (playerId : String)
    (f : PlayerRec → PlayerRec) : SysState :=
  match findAddrById s.heap s.roomPlayerAddrs playerId with
  | none => s
  | some a => s.mutateAddr a f

/-- A mutation the match performs on one of its own records (inventory
decrement, skip increment, elimination). -/
def SysState.mutateGamePlayer (s : SysState) (playerId : String)
    (f : PlayerRec → PlayerRec) : SysState :=
  match findAddrById s.heap s.gamePlayerAddrs playerId with
  | none => s
  | some a => s.mutateAddr a f

/-!
Theorems. Each claim of the review gets one theorem (with a witness when
the theorem carries hypotheses, and a counterexample theorem when the
original claim fails on the code).
-/

/-- Strictness order of the sizes, used to phrase the nesting rule: a size
can be blocked exactly by the slots of the same or a larger size. -/
def sizeRank : Size → Nat
  | Size.P => 0
  | Size.M => 1
  | Size.G => 2

theorem slotsFree_G (c : Cell) :
    (∀ t : Size, sizeRank Size.G ≤ sizeRank t → c.slot t = none) ↔ c.G = none := by
  constructor
  · intro h; exact h Size.G (le_refl _)
  · intro h t ht
    cases t <;> simp [sizeRank] at ht ⊢ <;> first | exact h | omega

theorem slotsFree_M (c : Cell) :
    (∀ t : Size, sizeRank Size.M ≤ sizeRank t → c.slot t = none) ↔
      (c.M = none ∧ c.G = none) := by
  constructor
  · intro h; exact ⟨h Size.M (le_refl _), h Size.G (by simp [sizeRank])⟩
  · intro h t ht
    cases t <;> simp [sizeRank, Cell.slot] at ht ⊢ <;>
      first | exact h.1 | exact h.2 | omega

theorem slotsFree_P (c : Cell) :
    (∀ t : Size, sizeRank Size.P ≤ sizeRank t → c.slot t = none) ↔
      (c.P = none ∧ c.M = none ∧ c.G = none) := by
  constructor
  · intro h
    exact ⟨h Size.P (le_refl _), h Size.M (by simp [sizeRank]),
      h Size.G (by simp [sizeRank])⟩
  · intro h t ht
    cases t <;> simp [Cell.slot] <;>
      first | exact h.1 | exact h.2.1 | exact h.2.2

/-- C1 (amended): the legality check of the Match Engine returns true iff
the cell index is within 0..8 and, in the target cell, the slot of the
requested size and every strictly larger slot are all empty. The occupancy
of larger slots of the same cell does affect the result (nesting rule);
only strictly smaller slots are irrelevant. -/
theorem isLegalMove_nesting_characterization (board : Board) (cellIndex : Int)
    (size : Size) :
    isLegalMove board cellIndex size = true ↔
      0 ≤ cellIndex ∧ cellIndex ≤ 8 ∧
        ∀ t : Size, sizeRank size ≤ sizeRank t →
          (board.cellAt cellIndex.toNat).slot t = none := by
  unfold isLegalMove
  by_cases hr : (cellIndex < 0 || cellIndex > 8) = true
  · rw [if_pos hr]
    simp only [Bool.or_eq_true, decide_eq_true_eq] at hr
    constructor
    · intro h; exact absurd h (by simp)
    · intro h; omega
  · rw [if_neg hr]
    simp only [Bool.or_eq_true, decide_eq_true_eq] at hr
    push_neg at hr
    have h0 : 0 ≤ cellIndex := by omega
    have h8 : cellIndex ≤ 8 := by omega
    cases size
    · rw [Bool.and_eq_true, Bool.and_eq_true, decide_eq_true_eq, decide_eq_true_eq,
        decide_eq_true_eq]
      constructor
      · intro h; exact ⟨h0, h8, (slotsFree_P _).mpr ⟨h.1.1, h.1.2, h.2⟩⟩
      · intro h
        have hh := (slotsFree_P _).mp h.2.2
        exact ⟨⟨hh.1, hh.2.1⟩, hh.2.2⟩
    · rw [Bool.and_eq_true, decide_eq_true_eq, decide_eq_true_eq]
      constructor
      · intro h; exact ⟨h0, h8, (slotsFree_M _).mpr h⟩
      · intro h; exact (slotsFree_M _).mp h.2.2
    · rw [decide_eq_true_eq]
      constructor
      · intro h; exact ⟨h0, h8, (slotsFree_G _).mpr h⟩
      · intro h; exact (slotsFree_G _).mp h.2.2

/-- The nine-cell board whose cell 0 holds only a G piece. -/
def c1Board : Board :=
  ⟨none, none, some Color.red⟩ :: List.replicate 8 emptyCell

/-- C1 counterexample: on a board whose cell 0 carries a red G, the M slot
of cell 0 is empty and the index is within 0..8, yet `isLegalMove` rejects
an M move there — the occupancy of the G slot changed the result, refuting
the slot-independence claim. -/
theorem isLegalMove_slot_independence_refuted :
    (c1Board.cellAt 0).M = none ∧
    isLegalMove c1Board 0 Size.M = false ∧
    isLegalMove (List.replicate 9 emptyCell) 0 Size.M = true := by
  refine ⟨by decide, by decide, by decide⟩

/-- C4 (amended): the replay-vote voter set is the set of seats connected
at the instant of each evaluation, not at initiation: a vote cast is
accepted iff the window is open and the caster is a currently connected
seat, and the vote completes as accepted iff every currently connected
seat has a recorded vote of true. -/
theorem replayVote_current_connectivity (r : Room) (now d : Nat) (pid : String)
    (v : Bool) (hd : r.replayDeadline = some d) :
    (r.checkReplayVotes now = VoteOutcome.accepted ↔
      (now ≤ d ∧ ∀ p ∈ r.players, p.connected = true →
        votesGet r.replayVotes p.id = some true)) ∧
    ((r.castReplayVote now pid v).2 = true ↔
      (now ≤ d ∧ ∃ p ∈ r.players, p.id = pid ∧ p.connected = true)) := by
  constructor
  · unfold Room.checkReplayVotes
    rw [hd]
    dsimp only
    by_cases h1 : now > d
    · rw [if_pos h1]
      constructor
      · intro h; cases h
      · intro h; exact absurd h.1 (by omega)
    · rw [if_neg h1]
      by_cases hpos : ((r.players.filter fun p => p.connected).all
          fun p => decide (votesGet r.replayVotes p.id = some true)) = true
      · have hvd : ((r.players.filter fun p => p.connected).all
            fun p => (votesGet r.replayVotes p.id).isSome) = true := by
          rw [List.all_eq_true] at hpos ⊢
          intro p hp
          have hx := hpos p hp
          rw [decide_eq_true_eq] at hx
          simp [hx]
        rw [if_neg (not_not_intro hvd), if_pos hpos]
        constructor
        · intro _
          refine ⟨by omega, ?_⟩
          intro p hp hc
          rw [List.all_eq_true] at hpos
          have := hpos p (List.mem_filter.mpr ⟨hp, hc⟩)
          simpa using this
        · intro _; rfl
      · have hrhs : ¬ (now ≤ d ∧ ∀ p ∈ r.players, p.connected = true →
            votesGet r.replayVotes p.id = some true) := by
          intro h
          apply hpos
          rw [List.all_eq_true]
          intro p hp
          rw [List.mem_filter] at hp
          simpa using h.2 p hp.1 hp.2
        by_cases hvd : ((r.players.filter fun p => p.connected).all
            fun p => (votesGet r.replayVotes p.id).isSome) = true
        · rw [if_neg (not_not_intro hvd), if_neg hpos]
          constructor
          · intro h; cases h
          · intro h; exact absurd h hrhs
        · rw [if_pos hvd]
          constructor
          · intro h; cases h
          · intro h; exact absurd h hrhs
  · unfold Room.castReplayVote
    rw [hd]
    dsimp only
    by_cases h1 : now > d
    · rw [if_pos h1]
      simp only [Bool.false_eq_true, false_iff]
      intro h; exact absurd h.1 (by omega)
    · rw [if_neg h1]
      by_cases hany : (r.players.any fun p => decide (p.id = pid) && p.connected) = true
      · rw [if_neg (not_not_intro hany)]
        simp only [true_iff]
        rw [List.any_eq_true] at hany
        obtain ⟨p, hp, hpc⟩ := hany
        rw [Bool.and_eq_true, decide_eq_true_eq] at hpc
        exact ⟨by omega, p, hp, hpc.1, hpc.2⟩
      · rw [if_pos hany]
        simp only [Bool.false_eq_true, false_iff]
        intro h
        apply hany
        rw [List.any_eq_true]
        obtain ⟨p, hp, hid, hc⟩ := h.2
        exact ⟨p, hp, by simp [hid, hc]⟩

/-- Concrete room for the C4 witness: one connected seat that has voted
true, inside an open 30 s window. -/
def c4wRoom : Room :=
  { mkRoom 2 "A" with
    players := [mkPlayer "A" "Ann" Color.red true true],
    game := { mkGame with status := GameStatus.finished },
    replayVotes := [("A", true)],
    replayDeadline := some 30000 }

/-- C4 witness: the characterization instantiated on a concrete room. -/
theorem replayVote_current_connectivity_witness :
    c4wRoom.checkReplayVotes 5 = VoteOutcome.accepted ↔
      (5 ≤ 30000 ∧ ∀ p ∈ c4wRoom.players, p.connected = true →
        votesGet c4wRoom.replayVotes p.id = some true) :=
  (replayVote_current_connectivity c4wRoom 5 30000 "A" true rfl).1

/-- Two-seat finished room before the replay vote opens. -/
def c4Room0 : Room :=
  { mkRoom 2 "A" with
    players := [mkPlayer "A" "Ann" Color.red true true,
                mkPlayer "B" "Bob" Color.blue true false],
    game := { mkGame with status := GameStatus.finished } }

/-- The same room after the vote opens at t = 0 (both seats connected). -/
def c4RoomStart : Room := c4Room0.startReplayVoting 0

/-- After seat A casts true at t = 10 and seat B then disconnects. -/
def c4RoomDrop : Room :=
  ((c4RoomStart.castReplayVote 10 "A" true).1).setPlayerConnected "B" false

/-- C4 counterexample: both seats are connected when the vote is
initiated, so the claimed voter set is {A, B}; seat B never votes and
disconnects, yet `checkReplayVotes` completes as accepted inside the
window, and B can no longer cast — the missing vote of a
connected-at-initiation seat neither blocks completion nor retains its
voting right. -/
theorem replayVote_voterset_not_fixed :
    (∀ p ∈ c4RoomStart.players, p.connected = true) ∧
    votesGet c4RoomDrop.replayVotes "B" = none ∧
    c4RoomDrop.checkReplayVotes 20 = VoteOutcome.accepted ∧
    (c4RoomDrop.castReplayVote 20 "B" true).2 = false :=
  ⟨by decide, by decide, by decide, by decide⟩

theorem initPlayers_getElem (l : List PlayerRec) :
    ∀ i k, (initPlayers i l)[k]? =
      (l[k]?).map fun p => mkPlayer p.id p.nickname
        (paletteColors.getD (i + k) Color.red) p.connected p.isHost := by
  induction l with
  | nil => intro i k; simp [initPlayers]
  | cons p rest ih =>
    intro i k
    cases k with
    | zero => simp [initPlayers]
    | succ k =>
      have : i + (k + 1) = (i + 1) + k := by omega
      simp [initPlayers, ih (i + 1) k, this]

/-- C9 (amended): on every match start or replay, `Game.initialize` keeps
the id, nickname, connected and host flags of the room seat at each
position and resets inventory, skips and elimination; the color, however,
is reassigned positionally from the ordered palette (seat k receives
palette[k]) rather than carried over from the room seat, so the room color
is preserved only when the room colors already form the palette in join
order. -/
theorem initialize_seat_characterization (g : Game) (ps : List PlayerRec)
    (ridx k : Nat) (h2 : 2 ≤ ps.length) (h4 : ps.length ≤ 4)
    (hk : k < ps.length) :
    ∃ p0 q, ps[k]? = some p0 ∧ (g.initGame ps ridx).players[k]? = some q ∧
      q.id = p0.id ∧ q.nickname = p0.nickname ∧
      q.color = paletteColors.getD k Color.red ∧
      q.inventory = fullInventory ∧ q.skipsInARow = 0 ∧
      q.isEliminated = false ∧ q.connected = p0.connected ∧
      q.isHost = p0.isHost ∧
      (g.initGame ps ridx).status = GameStatus.playing := by
  have hcond : ¬(ps.length < 2 ∨ ps.length > 4) := by omega
  refine ⟨ps[k], mkPlayer ps[k].id ps[k].nickname
    (paletteColors.getD k Color.red) ps[k].connected ps[k].isHost,
    List.getElem?_eq_getElem hk, ?_, rfl, rfl, rfl, rfl, rfl, rfl, rfl, rfl, ?_⟩
  · unfold Game.initGame
    rw [if_neg hcond]
    simp only
    rw [initPlayers_getElem ps 0 k, List.getElem?_eq_getElem hk]
    simp
  · unfold Game.initGame
    rw [if_neg hcond]

/-- C9 witness: the characterization instantiated at a two-seat list. -/
theorem initialize_seat_characterization_witness :
    ∃ p0 q,
      [mkPlayer "A" "Ann" Color.yellow true true,
       mkPlayer "B" "Bob" Color.green true false][0]? = some p0 ∧
      (Game.initGame mkGame
        [mkPlayer "A" "Ann" Color.yellow true true,
         mkPlayer "B" "Bob" Color.green true false] 0).players[0]? = some q ∧
      q.id = p0.id ∧ q.nickname = p0.nickname ∧
      q.color = paletteColors.getD 0 Color.red ∧
      q.inventory = fullInventory ∧ q.skipsInARow = 0 ∧
      q.isEliminated = false ∧ q.connected = p0.connected ∧
      q.isHost = p0.isHost ∧
      (Game.initGame mkGame
        [mkPlayer "A" "Ann" Color.yellow true true,
         mkPlayer "B" "Bob" Color.green true false] 0).status =
        GameStatus.playing :=
  initialize_seat_characterization mkGame
    [mkPlayer "A" "Ann" Color.yellow true true,
     mkPlayer "B" "Bob" Color.green true false] 0 0
    (by decide) (by decide) (by decide)

/-- The room produced by the join/leave history: A joins, B joins, A
leaves, C joins, D joins; the last join fills capacity 3 and autostarts
the match. Room colors end as B = blue, C = red, D = green. -/
def c9Room : Room :=
  let r0 := mkRoom 3 "A"
  let r1 := (r0.addPlayer (mkPlayer "A" "Ann" Color.red true false) 0).1
  let r2 := (r1.addPlayer (mkPlayer "B" "Bob" Color.red true false) 0).1
  let r3 := (r2.removePlayer "A").1
  let r4 := (r3.addPlayer (mkPlayer "C" "Cle" Color.red true false) 0).1
  (r4.addPlayer (mkPlayer "D" "Dan" Color.red true false) 0).1

/-- C9 counterexample: after the join/leave history of `c9Room`, the match
started for the room gives seat B the palette color red while the room
seat B holds blue — the room color is not preserved into the match. -/
theorem startGame_color_not_preserved :
    ((c9Room.players.find? fun p => p.id = "B").map PlayerRec.color =
      some Color.blue) ∧
    ((c9Room.game.players.find? fun p => p.id = "B").map PlayerRec.color =
      some Color.red) ∧
    c9Room.game.status = GameStatus.playing :=
  ⟨by decide, by decide, by decide⟩

theorem find?_eq_head_filter {α : Type} (p : α → Bool) (l : List α) :
    l.find? p = (l.filter p).head? := by
  induction l with
  | nil => rfl
  | cons a t ih =>
    by_cases h : p a
    · rw [List.find?_cons_of_pos _ h, List.filter_cons, if_pos h]
      rfl
    · rw [List.find?_cons_of_neg _ h, List.filter_cons, if_neg h, ih]

theorem findIdx?_none_of_all_false {α : Type} (p : α → Bool) (l : List α)
    (h : ∀ y ∈ l, p y = false) : ∀ i, l.findIdx? p i = none := by
  induction l with
  | nil => intro i; rfl
  | cons a t ih =>
    intro i
    rw [List.findIdx?_cons, if_neg (by simp [h a (List.mem_cons_self a t)])]
    exact ih (fun y hy => h y (List.mem_cons_of_mem a hy)) (i + 1)

theorem findIdx?_fresh_append {α : Type} (p : α → Bool) (l l2 : List α) (x : α)
    (hl : ∀ y ∈ l, p y = false) (hx : p x = true) :
    ∀ i, (l ++ x :: l2).findIdx? p i = some (i + l.length) := by
  induction l with
  | nil => intro i; simp [hx]
  | cons a t ih =>
    intro i
    have ha : p a = false := hl a (List.mem_cons_self a t)
    rw [List.cons_append, List.findIdx?_cons, if_neg (by simp [ha])]
    rw [ih (fun y hy => hl y (List.mem_cons_of_mem a hy)) (i + 1)]
    congr 1
    simp only [List.length_cons]
    omega

theorem getElem?_zero_mid {α : Type} (l : List α) (x : α) (t : List α) :
    (l ++ x :: t)[0]? = (l.head?).or (some x) := by
  cases l <;> simp

theorem isEmpty_branch_head {α : Type} (l : List α) :
    (if l.isEmpty then (none : Option α) else l[0]?) = l.head? := by
  cases l <;> simp

theorem head?_or_append {α : Type} (l t : List α) :
    (l ++ t).head? = (l.head?).or t.head? := by
  cases l <;> simp

/-- C2 (amended): the seat chosen by the turn-advancement scan. When the
previous current seat is still active, the next current seat is the first
active seat found scanning the seat list from the position right after the
previous one, wrapping around (the previous seat itself being the last
candidate) — as the claim states. When the previous current seat has just
become inactive (eliminated or disconnected), however, `getNextPlayer`
instead returns the first active seat of the whole list in seat order, not
the first active seat after the previous position. -/
theorem getNextPlayer_scan (l1 l2 : List PlayerRec) (x : PlayerRec)
    (hfresh : ∀ y ∈ l1 ++ l2, y.id ≠ x.id) :
    getNextPlayer (l1 ++ x :: l2) x.id =
      (if isActive x = true then ((l2 ++ l1) ++ [x]).find? isActive
       else (l1 ++ x :: l2).find? isActive) := by
  have hfresh1 : ∀ y ∈ l1, y.id ≠ x.id := fun y hy =>
    hfresh y (List.mem_append_left _ hy)
  have hfresh2 : ∀ y ∈ l2, y.id ≠ x.id := fun y hy =>
    hfresh y (List.mem_append_right _ hy)
  unfold getNextPlayer
  dsimp only
  by_cases hx : isActive x = true
  · rw [if_pos hx]
    have hfil : (l1 ++ x :: l2).filter isActive =
        l1.filter isActive ++ x :: l2.filter isActive := by
      rw [List.filter_append, List.filter_cons, if_pos hx]
    rw [hfil]
    have hne : ¬((l1.filter isActive ++ x :: l2.filter isActive).isEmpty = true) := by
      simp
    rw [if_neg hne]
    have hidx : (l1.filter isActive ++ x :: l2.filter isActive).findIdx?
        (fun p => decide (p.id = x.id)) 0 = some (l1.filter isActive).length := by
      have hh := findIdx?_fresh_append (fun p => decide (p.id = x.id))
        (l1.filter isActive) (x :: l2.filter isActive |>.tail) x
        (fun y hy => by
          have hmem := (List.mem_filter.mp hy).1
          simp [hfresh1 y hmem])
        (by simp) 0
      simpa using hh
    rw [hidx]
    dsimp only
    cases hf2 : l2.filter isActive with
    | nil =>
      rw [hf2] at hfil
      have hmod : ((l1.filter isActive).length + 1) %
          (l1.filter isActive ++ x :: ([] : List PlayerRec)).length = 0 := by
        simp
      rw [hmod, getElem?_zero_mid]
      rw [List.find?_append, List.find?_append, find?_eq_head_filter isActive l2,
        hf2, List.find?_cons_of_pos _ hx, find?_eq_head_filter isActive l1]
      cases (l1.filter isActive).head? <;> rfl
    | cons c cs =>
      have hlt : (l1.filter isActive).length + 1 <
          (l1.filter isActive ++ x :: c :: cs).length := by
        simp
      rw [Nat.mod_eq_of_lt hlt,
        List.getElem?_append_right (by omega : (l1.filter isActive).length ≤
          (l1.filter isActive).length + 1)]
      simp only [Nat.add_sub_cancel_left]
      rw [List.find?_append, List.find?_append, find?_eq_head_filter isActive l2, hf2]
      simp
  · rw [if_neg hx]
    have hfil : (l1 ++ x :: l2).filter isActive =
        l1.filter isActive ++ l2.filter isActive := by
      rw [List.filter_append, List.filter_cons, if_neg hx]
    rw [hfil]
    have hidx : (l1.filter isActive ++ l2.filter isActive).findIdx?
        (fun p => decide (p.id = x.id)) 0 = none := by
      apply findIdx?_none_of_all_false
      intro y hy
      rcases List.mem_append.mp hy with hy1 | hy2
      · simp [hfresh1 y (List.mem_filter.mp hy1).1]
      · simp [hfresh2 y (List.mem_filter.mp hy2).1]
    rw [hidx]
    dsimp only
    rw [List.find?_append, List.find?_cons_of_neg _ (by simpa using hx),
      find?_eq_head_filter isActive l1, find?_eq_head_filter isActive l2,
      ← head?_or_append]
    exact isEmpty_branch_head _

/-- The three-seat game of the C2 counterexample: seats A, B, C in order,
all connected and uneliminated, with B holding the turn and one prior
skip. -/
def c2Game : Game :=
  { board := createEmptyBoard,
    players := [mkPlayer "A" "Ann" Color.red true false,
                { mkPlayer "B" "Bob" Color.blue true false with skipsInARow := 1 },
                mkPlayer "C" "Cle" Color.green true false],
    currentPlayerId := some "B",
    status := GameStatus.playing, winnerId := none, isDraw := false }

/-- C2 counterexample: seat B (position 1) is skipped a second time and
eliminated, so the scan claimed by the spec — first active seat after
position 1, wrapping — would select C; the code instead selects A, the
first active seat of the whole list. -/
theorem nextSeat_after_elimination_refuted :
    (c2Game.skipCurrentPlayer).currentPlayerId = some "A" ∧
    ((((c2Game.skipCurrentPlayer).players.drop 2) ++
        ((c2Game.skipCurrentPlayer).players.take 2)).find? isActive).map
      PlayerRec.id = some "C" :=
  ⟨by decide, by decide⟩

/-- C2 witness: the scan characterization applied to three concrete
seats with the middle seat active. -/
theorem getNextPlayer_scan_witness :
    getNextPlayer [mkPlayer "A" "Ann" Color.red true false,
      mkPlayer "B" "Bob" Color.blue true false,
      mkPlayer "C" "Cle" Color.green true false] "B" =
      (if isActive (mkPlayer "B" "Bob" Color.blue true false) = true then
        (([mkPlayer "C" "Cle" Color.green true false] ++
          [mkPlayer "A" "Ann" Color.red true false]) ++
          [mkPlayer "B" "Bob" Color.blue true false]).find? isActive
       else ([mkPlayer "A" "Ann" Color.red true false] ++
          mkPlayer "B" "Bob" Color.blue true false ::
          [mkPlayer "C" "Cle" Color.green true false]).find? isActive) :=
  getNextPlayer_scan [mkPlayer "A" "Ann" Color.red true false]
    [mkPlayer "C" "Cle" Color.green true false]
    (mkPlayer "B" "Bob" Color.blue true false) (by decide)

/-- Everything of a seat record except the skip counter; turn advancement
may only touch the skip counter of auto-skipped seats. -/
def frameView (p : PlayerRec) :
    String × String × Color × Inventory × Bool × Bool × Bool :=
  (p.id, p.nickname, p.color, p.inventory, p.connected, p.isEliminated, p.isHost)

theorem updatePlayer_map_frameView (l : List PlayerRec) (pid : String) :
    (updatePlayer l pid PlayerRec.incrementSkips).map frameView =
      l.map frameView := by
  unfold updatePlayer
  rw [List.map_map]
  apply List.map_congr_left
  intro p _
  by_cases h : p.id = pid <;>
    simp [h, frameView, PlayerRec.incrementSkips]

theorem moveToNextPlayerAux_frame (fuel : Nat) :
    ∀ g : Game,
      (moveToNextPlayerAux fuel g).board = g.board ∧
      (moveToNextPlayerAux fuel g).winnerId = g.winnerId ∧
      (moveToNextPlayerAux fuel g).players.map frameView =
        g.players.map frameView := by
  induction fuel with
  | zero => intro g; exact ⟨rfl, rfl, rfl⟩
  | succ fuel ih =>
    intro g
    unfold moveToNextPlayerAux
    dsimp only
    by_cases h0 : (g.getActivePlayers).length = 0
    · rw [if_pos h0]; exact ⟨rfl, rfl, rfl⟩
    · rw [if_neg h0]
      by_cases h1 : ((g.getActivePlayers).filter
          fun p => hasLegalMoves g.board p).length = 0
      · rw [if_pos h1]; exact ⟨rfl, rfl, rfl⟩
      · rw [if_neg h1]
        cases hnp : getNextPlayer g.players (g.currentPlayerId.getD "") with
        | none => exact ⟨rfl, rfl, rfl⟩
        | some np =>
          dsimp only
          by_cases h2 : ¬ hasLegalMoves g.board np
          · rw [if_pos h2]
            have ihh := ih ({ g with currentPlayerId := some np.id, players := updatePlayer g.players np.id PlayerRec.incrementSkips })
            refine ⟨ihh.1, ihh.2.1, ?_⟩
            rw [ihh.2.2]
            exact updatePlayer_map_frameView g.players np.id
          · rw [if_neg h2]
            exact ⟨rfl, rfl, rfl⟩

theorem checkGameEnd_frame (g : Game) :
    (g.checkGameEnd).players = g.players ∧ (g.checkGameEnd).board = g.board ∧
    (g.checkGameEnd).isDraw = g.isDraw := by
  unfold Game.checkGameEnd
  dsimp only
  by_cases h : (g.getActivePlayers).length < 2
  · rw [if_pos h]
    cases g.getActivePlayers with
    | nil => exact ⟨rfl, rfl, rfl⟩
    | cons a t => cases t <;> exact ⟨rfl, rfl, rfl⟩
  · rw [if_neg h]; exact ⟨rfl, rfl, rfl⟩

theorem skipAndMaybeEliminate_id (q : PlayerRec) :
    (skipAndMaybeEliminate q).id = q.id := by
  unfold skipAndMaybeEliminate PlayerRec.incrementSkips PlayerRec.eliminate
  dsimp only
  split <;> rfl

theorem mem_updatePlayer_cases (l : List PlayerRec) (pid : String)
    (f : PlayerRec → PlayerRec) (hf : ∀ q, (f q).id = q.id) :
    ∀ y ∈ updatePlayer l pid f,
      (y.id ≠ pid → y ∈ l) ∧
      (y.id = pid → ∃ q ∈ l, q.id = pid ∧ y = f q) := by
  intro y hy
  obtain ⟨q, hq, hyq⟩ := List.mem_map.mp (by simpa [updatePlayer] using hy)
  by_cases h : q.id = pid
  · rw [if_pos h] at hyq
    constructor
    · intro hne; exfalso; apply hne; rw [← hyq, hf q, h]
    · intro _; exact ⟨q, hq, h, hyq.symm⟩
  · rw [if_neg h] at hyq
    constructor
    · intro _; rw [← hyq]; exact hq
    · intro he; exfalso; apply h; rw [← hyq] at he; exact he

theorem find?_id_unique (pid : String) :
    ∀ (l : List PlayerRec), (l.map PlayerRec.id).Nodup →
    ∀ p, l.find? (fun q => q.id = pid) = some p →
    ∀ q ∈ l, q.id = pid → q = p := by
  intro l
  induction l with
  | nil => intro _ p hp; cases hp
  | cons a t ih =>
    intro hnd p hp q hq hqid
    rw [List.map_cons, List.nodup_cons] at hnd
    by_cases ha : a.id = pid
    · rw [List.find?_cons_of_pos _ (by simpa using ha)] at hp
      cases hp
      rcases List.mem_cons.mp hq with rfl | hqt
      · rfl
      · exfalso
        apply hnd.1
        rw [ha, ← hqid]
        exact List.mem_map_of_mem PlayerRec.id hqt
    · rw [List.find?_cons_of_neg _ (by simpa using ha)] at hp
      rcases List.mem_cons.mp hq with rfl | hqt
      · exact absurd hqid ha
      · exact ih hnd.2 p hp q hqt hqid

theorem players_frame_transfer (l l2 : List PlayerRec)
    (h : l2.map frameView = l.map frameView) :
    ∀ y ∈ l2, ∃ z ∈ l, z.id = y.id ∧ z.nickname = y.nickname ∧
      z.color = y.color ∧ z.inventory = y.inventory ∧
      z.connected = y.connected ∧ z.isEliminated = y.isEliminated ∧
      z.isHost = y.isHost := by
  intro y hy
  have hmem : frameView y ∈ l.map frameView :=
    h ▸ List.mem_map_of_mem frameView hy
  obtain ⟨z, hz, hfz⟩ := List.mem_map.mp hmem
  simp only [frameView, Prod.mk.injEq] at hfz
  exact ⟨z, hz, hfz.1, hfz.2.1, hfz.2.2.1, hfz.2.2.2.1, hfz.2.2.2.2.1,
    hfz.2.2.2.2.2.1, hfz.2.2.2.2.2.2⟩

theorem skipAndMaybeEliminate_spec (q : PlayerRec) :
    (skipAndMaybeEliminate q).connected = q.connected ∧
    (1 ≤ q.skipsInARow → (skipAndMaybeEliminate q).isEliminated = true) := by
  unfold skipAndMaybeEliminate PlayerRec.incrementSkips PlayerRec.eliminate
  dsimp only
  constructor
  · split <;> rfl
  · intro h
    rw [if_pos (by omega)]

theorem updated_current_all_eliminated (g : Game) (cid : String) (p : PlayerRec)
    (hnd : (g.players.map PlayerRec.id).Nodup)
    (hfind : g.players.find? (fun q => q.id = cid) = some p)
    (hsk : 1 ≤ p.skipsInARow) :
    ∀ z ∈ updatePlayer g.players p.id skipAndMaybeEliminate,
      z.id = p.id → z.isEliminated = true := by
  intro z hz hzid
  obtain ⟨-, hc⟩ := mem_updatePlayer_cases g.players p.id skipAndMaybeEliminate
    skipAndMaybeEliminate_id z hz
  obtain ⟨q, hq, hqid, hzq⟩ := hc hzid
  have hpid : p.id = cid := by
    have := List.find?_some hfind
    simpa using this
  have hqp : q = p :=
    find?_id_unique cid g.players hnd p hfind q hq (by rw [hqid, hpid])
  subst hqp
  rw [hzq]
  exact (skipAndMaybeEliminate_spec q).2 hsk

/-- C3 (amended): the forced-skip operations enforce the elimination rule:
whenever `skipCurrentPlayer` or `skipTurn` increments the counter of the
current seat past the limit of 2 consecutive skips, that seat comes out
eliminated. (The auto-skip increment inside `moveToNextPlayer` performs no
such check, so the skip-limit invariant does not hold globally; see the
counterexample.) -/
theorem forced_skip_eliminates (g : Game) (p : PlayerRec)
    (hst : g.status = GameStatus.playing)
    (hcur : g.getCurrentPlayer = some p)
    (hsk : 1 ≤ p.skipsInARow)
    (hnd : (g.players.map PlayerRec.id).Nodup) :
    (∀ y ∈ (g.skipCurrentPlayer).players, y.id = p.id → y.isEliminated = true) ∧
    (∀ y ∈ (g.skipTurn).1.players, y.id = p.id → y.isEliminated = true) := by
  obtain ⟨cid, hcid⟩ : ∃ cid, g.currentPlayerId = some cid := by
    cases hc : g.currentPlayerId with
    | none => unfold Game.getCurrentPlayer at hcur; rw [hc] at hcur; cases hcur
    | some c => exact ⟨c, rfl⟩
  have hfind : g.players.find? (fun q => q.id = cid) = some p := by
    unfold Game.getCurrentPlayer at hcur; rw [hcid] at hcur; exact hcur
  have hguard : ¬(g.status ≠ GameStatus.playing ∨ g.currentPlayerId = none) := by
    simp [hst, hcid]
  have hall := updated_current_all_eliminated g cid p hnd hfind hsk
  constructor
  · intro y hy hyid
    have hred : g.skipCurrentPlayer =
        Game.moveToNextPlayer
          ({ g with players := updatePlayer g.players p.id skipAndMaybeEliminate }) := by
      unfold Game.skipCurrentPlayer
      rw [if_neg hguard, hcur]
    rw [hred] at hy
    unfold Game.moveToNextPlayer at hy
    have hfr := (moveToNextPlayerAux_frame
      (({ g with players := updatePlayer g.players p.id skipAndMaybeEliminate } : Game).players.length + 1)
      ({ g with players := updatePlayer g.players p.id skipAndMaybeEliminate })).2.2
    obtain ⟨z, hz, hzid, -, -, -, -, hzelim, -⟩ :=
      players_frame_transfer _ _ hfr y hy
    rw [← hzelim]
    exact hall z hz (by rw [hzid, hyid])
  · intro y hy hyid
    have hred : g.skipTurn =
        ((Game.moveToNextPlayer
          ({ g with players := updatePlayer g.players p.id skipAndMaybeEliminate })).checkGameEnd,
          true) := by
      unfold Game.skipTurn
      rw [if_neg hguard, hcur]
    rw [hred] at hy
    dsimp only at hy
    rw [(checkGameEnd_frame _).1] at hy
    unfold Game.moveToNextPlayer at hy
    have hfr := (moveToNextPlayerAux_frame
      (({ g with players := updatePlayer g.players p.id skipAndMaybeEliminate } : Game).players.length + 1)
      ({ g with players := updatePlayer g.players p.id skipAndMaybeEliminate })).2.2
    obtain ⟨z, hz, hzid, -, -, -, -, hzelim, -⟩ :=
      players_frame_transfer _ _ hfr y hy
    rw [← hzelim]
    exact hall z hz (by rw [hzid, hyid])

/-- C3 witness: the forced-skip elimination applied to the concrete
three-seat game `c2Game` whose current seat B already has one skip. -/
theorem forced_skip_eliminates_witness :
    (∀ y ∈ (c2Game.skipCurrentPlayer).players,
      y.id = ({ mkPlayer "B" "Bob" Color.blue true false with
        skipsInARow := 1 } : PlayerRec).id → y.isEliminated = true) ∧
    (∀ y ∈ (c2Game.skipTurn).1.players,
      y.id = ({ mkPlayer "B" "Bob" Color.blue true false with
        skipsInARow := 1 } : PlayerRec).id → y.isEliminated = true) :=
  forced_skip_eliminates c2Game
    ({ mkPlayer "B" "Bob" Color.blue true false with skipsInARow := 1 })
    (by decide) (by decide) (by decide) (by decide)

/-- The C3 counterexample game: seat A holds the turn; seat B has an empty
inventory (hence no legal move) and one prior skip; seat C can still
move. -/
def c3Game : Game :=
  { board := createEmptyBoard,
    players := [mkPlayer "A" "Ann" Color.red true false,
      { mkPlayer "B" "Bob" Color.blue true false with
        skipsInARow := 1, inventory := ⟨0, 0, 0⟩ },
      mkPlayer "C" "Cle" Color.green true false],
    currentPlayerId := some "A",
    status := GameStatus.playing, winnerId := none, isDraw := false }

/-- C3 counterexample: a single `skipTurn` (a timeout of seat A) auto-skips
seat B during turn advancement, raising its counter to the limit 2 without
eliminating it, and the match goes on — the claimed invariant
`skipsInARow ≥ 2 → isEliminated` is violated in a reachable state. -/
theorem skip_limit_invariant_refuted :
    ((c3Game.skipTurn).1.players.find? (fun q => q.id = "B")).map
        (fun q => (q.skipsInARow, q.isEliminated)) = some (2, false) ∧
    (c3Game.skipTurn).1.status = GameStatus.playing :=
  ⟨by decide, by decide⟩

/-- C5 (amended): when the forced skip of the current seat leaves zero
active seats, `skipTurn` finishes the match but assigns no terminal
result: `winnerId` and `isDraw` keep their previous values (the
zero-active branch of `moveToNextPlayer` sets only the status, and
`checkGameEnd` names a winner only when exactly one ACTIVE seat remains,
never a merely uneliminated disconnected one). -/
theorem skipTurn_zero_active_no_result (g : Game) (p : PlayerRec)
    (hst : g.status = GameStatus.playing)
    (hcur : g.getCurrentPlayer = some p)
    (hnd : (g.players.map PlayerRec.id).Nodup)
    (hothers : ∀ q ∈ g.players, q.id ≠ p.id → isActive q = false)
    (hgone : 1 ≤ p.skipsInARow ∨ p.connected = false) :
    (g.skipTurn).1.status = GameStatus.finished ∧
    (g.skipTurn).1.winnerId = g.winnerId ∧
    (g.skipTurn).1.isDraw = g.isDraw ∧
    (g.skipTurn).1.board = g.board ∧
    (g.skipTurn).2 = true := by
  obtain ⟨cid, hcid⟩ : ∃ cid, g.currentPlayerId = some cid := by
    cases hc : g.currentPlayerId with
    | none => unfold Game.getCurrentPlayer at hcur; rw [hc] at hcur; cases hcur
    | some c => exact ⟨c, rfl⟩
  have hfind : g.players.find? (fun q => q.id = cid) = some p := by
    unfold Game.getCurrentPlayer at hcur; rw [hcid] at hcur; exact hcur
  have hpid : p.id = cid := by
    have := List.find?_some hfind
    simpa using this
  have hguard : ¬(g.status ≠ GameStatus.playing ∨ g.currentPlayerId = none) := by
    simp [hst, hcid]
  have hall : ∀ z ∈ updatePlayer g.players p.id skipAndMaybeEliminate,
      isActive z = false := by
    intro z hz
    obtain ⟨hne, hc⟩ := mem_updatePlayer_cases g.players p.id
      skipAndMaybeEliminate skipAndMaybeEliminate_id z hz
    by_cases hzid : z.id = p.id
    · obtain ⟨q, hq, hqid, hzq⟩ := hc hzid
      have hqp : q = p :=
        find?_id_unique cid g.players hnd p hfind q hq (by rw [hqid, hpid])
      subst hqp
      rcases hgone with hsk | hconn
      · rw [hzq]
        unfold isActive
        rw [(skipAndMaybeEliminate_spec q).2 hsk]
        rfl
      · rw [hzq]
        unfold isActive
        rw [(skipAndMaybeEliminate_spec q).1, hconn]
        simp
    · exact hothers z (hne hzid) hzid
  have hfilnil : (updatePlayer g.players p.id skipAndMaybeEliminate).filter
      isActive = [] := by
    rw [List.filter_eq_nil_iff]
    intro a ha
    simp [hall a ha]
  have hred : g.skipTurn =
      ((Game.moveToNextPlayer
        ({ g with players := updatePlayer g.players p.id skipAndMaybeEliminate })).checkGameEnd,
        true) := by
    unfold Game.skipTurn
    rw [if_neg hguard, hcur]
  have hmv : Game.moveToNextPlayer
      ({ g with players := updatePlayer g.players p.id skipAndMaybeEliminate }) =
      { g with players := updatePlayer g.players p.id skipAndMaybeEliminate,
               status := GameStatus.finished } := by
    unfold Game.moveToNextPlayer moveToNextPlayerAux
    dsimp only [Game.getActivePlayers]
    rw [if_pos (by simp [hfilnil])]
  have hcge : (({ g with players := updatePlayer g.players p.id skipAndMaybeEliminate, status := GameStatus.finished } : Game)).checkGameEnd =
      { g with players := updatePlayer g.players p.id skipAndMaybeEliminate,
               status := GameStatus.finished } := by
    unfold Game.checkGameEnd
    dsimp only [Game.getActivePlayers]
    rw [hfilnil]
    rfl
  rw [hred, hmv, hcge]
  exact ⟨rfl, rfl, rfl, rfl, rfl⟩

/-- Two-seat game for C5: current seat A already has one skip, seat B is
disconnected but not eliminated. -/
def c5Game : Game :=
  { board := createEmptyBoard,
    players := [{ mkPlayer "A" "Ann" Color.red true false with skipsInARow := 1 },
                mkPlayer "B" "Bob" Color.blue false false],
    currentPlayerId := some "A",
    status := GameStatus.playing, winnerId := none, isDraw := false }

/-- C5 witness: the zero-active characterization applied to `c5Game`. -/
theorem skipTurn_zero_active_no_result_witness :
    (c5Game.skipTurn).1.status = GameStatus.finished ∧
    (c5Game.skipTurn).1.winnerId = c5Game.winnerId ∧
    (c5Game.skipTurn).1.isDraw = c5Game.isDraw ∧
    (c5Game.skipTurn).1.board = c5Game.board ∧
    (c5Game.skipTurn).2 = true :=
  skipTurn_zero_active_no_result c5Game
    ({ mkPlayer "A" "Ann" Color.red true false with skipsInARow := 1 })
    (by decide) (by decide) (by decide) (by decide) (by decide)

/-- C5 counterexample: in `c5Game`, the timeout skip eliminates A and
leaves zero active seats; exactly one seat (the disconnected B) remains
uneliminated, so the claim requires `winnerId = B` — but the code records
neither a winner nor a draw. -/
theorem zero_active_result_refuted :
    (c5Game.skipTurn).1.status = GameStatus.finished ∧
    (((c5Game.skipTurn).1.players.filter fun q => !q.isEliminated).map
      PlayerRec.id) = ["B"] ∧
    (c5Game.skipTurn).1.winnerId = none ∧
    (c5Game.skipTurn).1.isDraw = false :=
  ⟨by decide, by decide, by decide, by decide⟩

/-- C7 (amended): every listed operation invoked on an already-Finished
match leaves the whole state unchanged (each is guarded on
`status == playing`), so board, `winnerId` and `isDraw` are stable from
then on. The guarantee does not extend inside the transition itself:
`checkGameEnd` carries no status guard, and the very `skipTurn` call that
finishes a match as a draw can still set a winner afterwards (see the
counterexample). -/
theorem finished_match_operations_frame (g : Game)
    (hst : g.status = GameStatus.finished) :
    (∀ pid cell size, g.applyMove pid cell size = (g, false)) ∧
    g.skipCurrentPlayer = g ∧
    g.skipTurn = (g, false) := by
  have hne : g.status ≠ GameStatus.playing := by rw [hst]; decide
  refine ⟨?_, ?_, ?_⟩
  · intro pid cell size
    have hv : g.isValidMove pid cell size = false := by
      unfold Game.isValidMove
      rw [if_pos hne]
    unfold Game.applyMove
    rw [if_pos (by simp [hv])]
  · unfold Game.skipCurrentPlayer
    rw [if_pos (Or.inl hne)]
  · unfold Game.skipTurn
    rw [if_pos (Or.inl hne)]

/-- A concrete finished match (ended as a draw) for the C7 witness. -/
def c7Finished : Game :=
  { board := createEmptyBoard,
    players := [mkPlayer "A" "Ann" Color.red true false,
                mkPlayer "B" "Bob" Color.blue true false],
    currentPlayerId := some "A",
    status := GameStatus.finished, winnerId := none, isDraw := true }

/-- C7 witness: the stability statement applied to `c7Finished`. -/
theorem finished_match_operations_frame_witness :
    (∀ pid cell size, c7Finished.applyMove pid cell size = (c7Finished, false)) ∧
    c7Finished.skipCurrentPlayer = c7Finished ∧
    c7Finished.skipTurn = (c7Finished, false) :=
  finished_match_operations_frame c7Finished (by decide)

/-- Two-seat game for the C7 counterexample: current seat A has one prior
skip; seat B is connected but its inventory is exhausted. -/
def c7Game : Game :=
  { board := createEmptyBoard,
    players := [{ mkPlayer "A" "Ann" Color.red true false with skipsInARow := 1 },
      { mkPlayer "B" "Bob" Color.blue true false with inventory := ⟨0, 0, 0⟩ }],
    currentPlayerId := some "A",
    status := GameStatus.playing, winnerId := none, isDraw := false }

/-- C7 counterexample: one `skipTurn` call eliminates A, the advancement
finds no seat with a legal move and finishes the match as a draw
(`isDraw = true`), and the trailing unguarded `checkGameEnd` of the same
call then sets `winnerId = B` on the drawn match — the final state holds
both a draw flag and a winner, which the claim forbids. -/
theorem draw_then_winner_refuted :
    (c7Game.skipTurn).1.status = GameStatus.finished ∧
    (c7Game.skipTurn).1.isDraw = true ∧
    (c7Game.skipTurn).1.winnerId = some "B" :=
  ⟨by decide, by decide, by decide⟩

theorem slot_setSlot_self (c : Cell) (s : Size) (v : Option Color) :
    (c.setSlot s v).slot s = v := by
  cases s <;> rfl

theorem slot_setSlot_other (c : Cell) (s t : Size) (v : Option Color)
    (h : t ≠ s) : (c.setSlot s v).slot t = c.slot t := by
  cases s <;> cases t <;> first | rfl | exact absurd rfl h

theorem cellAt_setSlot_self (b : Board) (i : Nat) (s : Size) (v : Option Color)
    (h : i < b.length) : (b.setSlot i s v).cellAt i = (b.cellAt i).setSlot s v := by
  unfold Board.setSlot Board.cellAt
  rw [List.getD_eq_getElem?_getD, List.getD_eq_getElem?_getD,
    List.getElem?_set_self h]
  rfl

theorem cellAt_setSlot_other (b : Board) (i j : Nat) (s : Size)
    (v : Option Color) (hne : j ≠ i) :
    (b.setSlot i s v).cellAt j = b.cellAt j := by
  unfold Board.setSlot Board.cellAt
  rw [List.getD_eq_getElem?_getD, List.getD_eq_getElem?_getD,
    List.getElem?_set_ne (fun he => hne he.symm)]
  rw [List.getD_eq_getElem?_getD]

theorem usePieceReset_id (size : Size) (q : PlayerRec) :
    ((q.usePiece size).resetSkips).id = q.id := by
  cases size <;> rfl

theorem usePiece_counts (p : PlayerRec) (s : Size) :
    ((p.usePiece s).resetSkips).inventory.count s = p.inventory.count s - 1 ∧
    ∀ t, t ≠ s → ((p.usePiece s).resetSkips).inventory.count t =
      p.inventory.count t := by
  cases s <;> refine ⟨rfl, ?_⟩ <;> intro t ht <;> cases t <;>
    first | rfl | exact absurd rfl ht

theorem moveToNextPlayer_frame (g : Game) :
    (g.moveToNextPlayer).board = g.board ∧
    (g.moveToNextPlayer).winnerId = g.winnerId ∧
    (g.moveToNextPlayer).players.map frameView = g.players.map frameView := by
  unfold Game.moveToNextPlayer
  exact moveToNextPlayerAux_frame (g.players.length + 1) g

theorem isValidMove_iff (g : Game) (pid : String) (cell : Int) (size : Size) :
    g.isValidMove pid cell size = true ↔
      (g.status = GameStatus.playing ∧ g.currentPlayerId = some pid ∧
        ∃ p, g.players.find? (fun q => q.id = pid) = some p ∧
          p.isEliminated = false ∧ p.inventory.count size > 0 ∧
          isLegalMove g.board cell size = true) := by
  unfold Game.isValidMove
  by_cases h1 : g.status ≠ GameStatus.playing
  · rw [if_pos h1]
    constructor
    · intro h; cases h
    · intro h; exact absurd h.1 h1
  · rw [if_neg h1]
    push_neg at h1
    by_cases h2 : g.currentPlayerId ≠ some pid
    · rw [if_pos h2]
      constructor
      · intro h; cases h
      · intro h; exact absurd h.2.1 h2
    · rw [if_neg h2]
      push_neg at h2
      cases hfind : g.players.find? (fun q => q.id = pid) with
      | none =>
        constructor
        · intro h; cases h
        · intro h
          obtain ⟨p, hp, -⟩ := h.2.2
          cases hp
      | some p =>
        dsimp only
        by_cases h3 : p.isEliminated
        · rw [if_pos h3]
          constructor
          · intro h; cases h
          · intro h
            obtain ⟨q, hq, hqe, -⟩ := h.2.2
            cases hq
            exact absurd hqe (by simp [h3])
        · rw [if_neg h3]
          by_cases h4 : ¬ p.hasPiece size
          · rw [if_pos h4]
            constructor
            · intro h; cases h
            · intro h
              obtain ⟨q, hq, -, hqc, -⟩ := h.2.2
              cases hq
              exact absurd (by unfold PlayerRec.hasPiece; simpa using hqc) h4
          · rw [if_neg h4]
            push_neg at h4
            constructor
            · intro h
              refine ⟨h1, h2, p, rfl, by simpa using h3, ?_, h⟩
              unfold PlayerRec.hasPiece at h4
              simpa using h4
            · intro h
              obtain ⟨q, hq, -, -, hleg⟩ := h.2.2
              cases hq
              exact hleg

theorem applyMove_success_shape (g : Game) (pid : String) (cell : Int)
    (size : Size) (p : PlayerRec)
    (hval : g.isValidMove pid cell size = true)
    (hfind : g.players.find? (fun q => q.id = pid) = some p) :
    (g.applyMove pid cell size).2 = true ∧
    (g.applyMove pid cell size).1.board =
      g.board.setSlot cell.toNat size (some p.color) ∧
    (g.applyMove pid cell size).1.players.map frameView =
      (updatePlayer g.players pid (fun q => (q.usePiece size).resetSkips)).map
        frameView := by
  unfold Game.applyMove
  rw [if_neg (by simp [hval]), hfind]
  dsimp only
  by_cases hwin : checkWinConditions
      (g.board.setSlot cell.toNat size (some p.color)) p.color = true
  · rw [if_pos hwin]
    exact ⟨rfl, rfl, rfl⟩
  · rw [if_neg hwin]
    by_cases hdraw : isDrawB (g.board.setSlot cell.toNat size (some p.color))
        (updatePlayer g.players pid (fun q => (q.usePiece size).resetSkips)) = true
    · rw [if_pos hdraw]
      exact ⟨rfl, rfl, rfl⟩
    · rw [if_neg hdraw]
      exact ⟨rfl, (moveToNextPlayer_frame _).1, (moveToNextPlayer_frame _).2.2⟩

/-- C6: a move submission succeeds iff the match is Playing, the submitter
is the current seat, that seat exists, is not eliminated, holds a piece of
the size, and the move is board-legal; a rejected submission returns false
and leaves the whole match state unchanged; a successful one sets exactly
the one requested slot (previously empty) to the mover color and
decrements exactly the mover inventory count for that size, leaving every
other slot and every other seat inventory as they were. -/
theorem applyMove_validation_atomicity (g : Game) (pid : String) (cell : Int)
    (size : Size) (hnd : (g.players.map PlayerRec.id).Nodup)
    (hlen : g.board.length = 9) :
    ((g.applyMove pid cell size).2 = true ↔
      (g.status = GameStatus.playing ∧ g.currentPlayerId = some pid ∧
        ∃ p, g.players.find? (fun q => q.id = pid) = some p ∧
          p.isEliminated = false ∧ p.inventory.count size > 0 ∧
          isLegalMove g.board cell size = true)) ∧
    ((g.applyMove pid cell size).2 = false → (g.applyMove pid cell size).1 = g) ∧
    ((g.applyMove pid cell size).2 = true →
      ∃ p, g.players.find? (fun q => q.id = pid) = some p ∧
        (g.board.cellAt cell.toNat).slot size = none ∧
        (((g.applyMove pid cell size).1.board.cellAt cell.toNat).slot size =
          some p.color) ∧
        (∀ i t, ¬(i = cell.toNat ∧ t = size) →
          ((g.applyMove pid cell size).1.board.cellAt i).slot t =
            (g.board.cellAt i).slot t) ∧
        (∀ y ∈ (g.applyMove pid cell size).1.players,
          (y.id = pid → y.inventory.count size = p.inventory.count size - 1 ∧
            ∀ t, t ≠ size → y.inventory.count t = p.inventory.count t) ∧
          (y.id ≠ pid → ∃ q ∈ g.players, q.id = y.id ∧
            q.inventory = y.inventory))) := by
  by_cases hval : g.isValidMove pid cell size = true
  · obtain ⟨hst, hcid, p, hfind, helim, hinv, hleg⟩ :=
      (isValidMove_iff g pid cell size).mp hval
    obtain ⟨hsucc, hboard, hplayers⟩ :=
      applyMove_success_shape g pid cell size p hval hfind
    have hchar := (isLegalMove_nesting_characterization g.board cell size).mp hleg
    have hlt : cell.toNat < g.board.length := by omega
    refine ⟨?_, ?_, ?_⟩
    · rw [hsucc]
      simp only [true_iff]
      exact ⟨hst, hcid, p, hfind, helim, hinv, hleg⟩
    · intro hfalse; rw [hsucc] at hfalse; cases hfalse
    · intro _
      refine ⟨p, hfind, hchar.2.2 size (le_refl _), ?_, ?_, ?_⟩
      · rw [hboard, cellAt_setSlot_self g.board _ _ _ hlt, slot_setSlot_self]
      · intro i t hit
        rw [hboard]
        by_cases hi : i = cell.toNat
        · subst hi
          have ht : t ≠ size := fun he => hit ⟨rfl, he⟩
          rw [cellAt_setSlot_self g.board _ _ _ hlt, slot_setSlot_other _ _ _ _ ht]
        · rw [cellAt_setSlot_other _ _ _ _ _ hi]
      · intro y hy
        obtain ⟨z, hz, hzid, -, -, hzinv, -, -, -⟩ :=
          players_frame_transfer _ _ hplayers y hy
        constructor
        · intro hyid
          obtain ⟨-, hcase⟩ := mem_updatePlayer_cases g.players pid
            (fun q => (q.usePiece size).resetSkips) (usePieceReset_id size) z hz
          obtain ⟨q, hq, hqid, hzq⟩ := hcase (by rw [hzid, hyid])
          have hqp : q = p := find?_id_unique pid g.players hnd p hfind q hq hqid
          subst hqp
          rw [← hzinv, hzq]
          exact ⟨(usePiece_counts q size).1, (usePiece_counts q size).2⟩
        · intro hyne
          obtain ⟨hmem, -⟩ := mem_updatePlayer_cases g.players pid
            (fun q => (q.usePiece size).resetSkips) (usePieceReset_id size) z hz
          exact ⟨z, hmem (by rw [hzid]; exact hyne), hzid, hzinv⟩
  · have hred : g.applyMove pid cell size = (g, false) := by
      unfold Game.applyMove
      rw [if_pos (by simpa using hval)]
    refine ⟨?_, ?_, ?_⟩
    · rw [hred]
      constructor
      · intro h; cases h
      · intro hcond
        exact absurd ((isValidMove_iff g pid cell size).mpr hcond) hval
    · intro _; rw [hred]
    · intro htrue; rw [hred] at htrue; cases htrue

/-- Two fresh seats with A to move on an empty board, for the C6 witness. -/
def c6Game : Game :=
  { board := createEmptyBoard,
    players := [mkPlayer "A" "Ann" Color.red true false,
                mkPlayer "B" "Bob" Color.blue true false],
    currentPlayerId := some "A",
    status := GameStatus.playing, winnerId := none, isDraw := false }

/-- C6 witness: the validation characterization instantiated on `c6Game`
for the move A places P on cell 0. -/
theorem applyMove_validation_atomicity_witness :
    (c6Game.applyMove "A" 0 Size.P).2 = true ↔
      (c6Game.status = GameStatus.playing ∧
        c6Game.currentPlayerId = some "A" ∧
        ∃ p, c6Game.players.find? (fun q => q.id = "A") = some p ∧
          p.isEliminated = false ∧ p.inventory.count Size.P > 0 ∧
          isLegalMove c6Game.board 0 Size.P = true) :=
  (applyMove_validation_atomicity c6Game "A" 0 Size.P (by decide) (by decide)).1

theorem allocMatchPlayers_spec (as : List Nat) :
    ∀ (h : List PlayerRec) (i : Nat),
      h.length ≤ (allocMatchPlayers h i as).1.length ∧
      (∀ a, a < h.length → (allocMatchPlayers h i as).1[a]? = h[a]?) ∧
      (∀ b ∈ (allocMatchPlayers h i as).2, h.length ≤ b) := by
  induction as with
  | nil =>
    intro h i
    exact ⟨le_refl _, fun a _ => rfl, fun b hb => absurd hb (List.not_mem_nil b)⟩
  | cons a rest ih =>
    intro h i
    obtain ⟨ihlen, ihget, ihaddr⟩ := ih (h ++ [freshMatchPlayer h i a]) (i + 1)
    have hstep : allocMatchPlayers h i (a :: rest) =
        ((allocMatchPlayers (h ++ [freshMatchPlayer h i a]) (i + 1) rest).1,
         h.length ::
           (allocMatchPlayers (h ++ [freshMatchPlayer h i a]) (i + 1) rest).2) :=
      rfl
    rw [hstep]
    refine ⟨?_, ?_, ?_⟩
    · calc h.length ≤ (h ++ [freshMatchPlayer h i a]).length := by simp
        _ ≤ _ := ihlen
    · intro a2 ha2
      rw [ihget a2 (by simp; omega)]
      exact List.getElem?_append_left (by omega)
    · intro b hb
      rcases List.mem_cons.mp hb with rfl | hb2
      · exact le_refl _
      · have hb3 := ihaddr b hb2
        simp only [List.length_append, List.length_cons, List.length_nil] at hb3
        omega

/-- C10: starting a match allocates fresh match-owned records: the room
addresses and their records are untouched, every match record lives at a
new address disjoint from every room address, and consequently a mutation
performed through the room side (eliminate, setConnected via
`Room.getPlayer`) never changes any match record, while a mutation the
match performs on its own records never changes any room record. -/
theorem startGame_isolates_room_and_match (s : SysState)
    (hv : ∀ a ∈ s.roomPlayerAddrs, a < s.heap.length) :
    (s.startGameS).roomPlayerAddrs = s.roomPlayerAddrs ∧
    (∀ a ∈ s.roomPlayerAddrs, heapGet (s.startGameS).heap a = heapGet s.heap a) ∧
    (∀ b ∈ (s.startGameS).gamePlayerAddrs,
      ∀ a ∈ (s.startGameS).roomPlayerAddrs, b ≠ a) ∧
    (∀ (pid : String) (f : PlayerRec → PlayerRec),
      ∀ b ∈ (s.startGameS).gamePlayerAddrs,
        heapGet (((s.startGameS).mutateRoomPlayer pid f)).heap b =
          heapGet (s.startGameS).heap b) ∧
    (∀ (pid : String) (f : PlayerRec → PlayerRec),
      ∀ a ∈ (s.startGameS).roomPlayerAddrs,
        heapGet (((s.startGameS).mutateGamePlayer pid f)).heap a =
          heapGet (s.startGameS).heap a) := by
  obtain ⟨hlen, hget, haddr⟩ := allocMatchPlayers_spec s.roomPlayerAddrs s.heap 0
  refine ⟨rfl, ?_, ?_, ?_, ?_⟩
  · intro a ha
    exact hget a (hv a ha)
  · intro b hb a ha
    have hbl := haddr b hb
    have hal := hv a ha
    omega
  · intro pid f b hb
    have hbl := haddr b hb
    unfold SysState.mutateRoomPlayer
    cases hfa : findAddrById (s.startGameS).heap (s.startGameS).roomPlayerAddrs pid with
    | none => rfl
    | some addr =>
      dsimp only
      unfold SysState.mutateAddr
      cases hga : heapGet (s.startGameS).heap addr with
      | none => rfl
      | some prec =>
        dsimp only
        have hmem : addr ∈ (s.startGameS).roomPlayerAddrs :=
          List.mem_of_find?_eq_some hfa
        have hal : addr < s.heap.length := hv addr hmem
        unfold heapGet heapSet
        exact List.getElem?_set_ne (by omega)
  · intro pid f a ha
    have hal : a < s.heap.length := hv a ha
    unfold SysState.mutateGamePlayer
    cases hfa : findAddrById (s.startGameS).heap (s.startGameS).gamePlayerAddrs pid with
    | none => rfl
    | some addr =>
      dsimp only
      unfold SysState.mutateAddr
      cases hga : heapGet (s.startGameS).heap addr with
      | none => rfl
      | some prec =>
        dsimp only
        have hmem : addr ∈ (s.startGameS).gamePlayerAddrs :=
          List.mem_of_find?_eq_some hfa
        have hbl : s.heap.length ≤ addr := haddr addr hmem
        unfold heapGet heapSet
        exact List.getElem?_set_ne (by omega)

/-- A concrete two-seat room heap for the C10 witness. -/
def c10Sys : SysState :=
  { heap := [mkPlayer "A" "Ann" Color.red true true,
             mkPlayer "B" "Bob" Color.blue true false],
    roomPlayerAddrs := [0, 1], gamePlayerAddrs := [] }

/-- C10 witness: the isolation statement applied to `c10Sys`: eliminating
seat A through the room side leaves the match record at address 2
untouched. -/
theorem startGame_isolates_witness :
    heapGet ((c10Sys.startGameS).mutateRoomPlayer "A" PlayerRec.eliminate).heap 2 =
      heapGet (c10Sys.startGameS).heap 2 :=
  (startGame_isolates_room_and_match c10Sys (by decide)).2.2.2.1 "A"
    PlayerRec.eliminate 2 (by decide)

/-- C8: the win check succeeds iff one of the eight lines has the visible
piece (the largest occupied slot, G over M over P) of every one of its
three cells equal to the color; only `getVisiblePiece` values feed the
decision, so hidden smaller slots never influence it. -/
theorem checkWinConditions_visible_lines (board : Board) (color : Color) :
    checkWinConditions board color = true ↔
      ∃ line ∈ winLines, ∀ i ∈ line,
        getVisiblePiece (board.cellAt i) = some color := by
  simp [checkWinConditions, checkSameColorAlignment, List.any_eq_true,
    List.all_eq_true, decide_eq_true_eq]
